import Mathlib

/-!
Verification development for the hyperglot character-resolution engine.

The repository sources available are the validator module
(lib/hyperglot/validate.py) and the orthography test-suite.  Functions of
validate.py are translated directly.  The Orthography / Glyph Parser /
Mark Classifier / Inheritance Resolver / Script Registry components
(lib/hyperglot/orthography.py and lib/hyperglot/parse.py) are not among
the available sources, so they are modelled from the specification, as
noted on each such definition.
-/

/-- Modelled from the spec: the Mark Classifier category test. True when the
codepoint falls in a combining-mark general category (nonspacing Mn,
spacing-combining Mc, or enclosing Me).  The table covers the Unicode
combining-mark ranges relevant to this development. -/
def isMarkChar (c : Char) : Bool :=
  (0x0300 ≤ c.toNat && c.toNat ≤ 0x036F) ||  -- Combining Diacritical Marks
  (0x0483 ≤ c.toNat && c.toNat ≤ 0x0489) ||  -- Cyrillic combining, incl. Me
  (0x0591 ≤ c.toNat && c.toNat ≤ 0x05BD) ||  -- Hebrew points
  (0x0610 ≤ c.toNat && c.toNat ≤ 0x061A) ||  -- Arabic signs
  (0x064B ≤ c.toNat && c.toNat ≤ 0x065F) ||  -- Arabic harakat
  (c.toNat = 0x0670) ||
  (0x06D6 ≤ c.toNat && c.toNat ≤ 0x06DC) ||
  (0x1DC0 ≤ c.toNat && c.toNat ≤ 0x1DF9) ||  -- Combining Diacritical Supplement
  (0x20D0 ≤ c.toNat && c.toNat ≤ 0x20F0) ||  -- Combining for Symbols, incl. Me
  (0xFE20 ≤ c.toNat && c.toNat ≤ 0xFE2F)     -- Combining Half Marks

/-- Modelled from the spec: Unicode canonical decomposition of one codepoint
into a (base letter, combining mark) pair, for the precomposed codepoints
used in this development.  Codepoints with no canonical decomposition map
to none. -/
def decompose1 (c : Char) : Option (Char × Char) :=
  if c = 'Ä' then some ('A', '̈')
  else if c = 'ä' then some ('a', '̈')
  else if c = 'Ö' then some ('O', '̈')
  else if c = 'ö' then some ('o', '̈')
  else if c = 'Ü' then some ('U', '̈')
  else if c = 'ü' then some ('u', '̈')
  else if c = 'À' then some ('A', '̀')
  else if c = 'à' then some ('a', '̀')
  else if c = 'É' then some ('E', '́')
  else if c = 'é' then some ('e', '́')
  else if c = 'Å' then some ('A', '̊')
  else if c = 'å' then some ('a', '̊')
  else none

/-- Modelled from the spec: whether a single precomposed Unicode codepoint
exists for the exact (base letter, combining mark) combination.  Inverse
direction of the canonical decomposition table: pairs such as (R, tilde)
have no precomposed codepoint and map to none. -/
def composeBM (b m : Char) : Option Char :=
  if b = 'A' ∧ m = '̈' then some 'Ä'
  else if b = 'a' ∧ m = '̈' then some 'ä'
  else if b = 'O' ∧ m = '̈' then some 'Ö'
  else if b = 'o' ∧ m = '̈' then some 'ö'
  else if b = 'U' ∧ m = '̈' then some 'Ü'
  else if b = 'u' ∧ m = '̈' then some 'ü'
  else if b = 'A' ∧ m = '̀' then some 'À'
  else if b = 'a' ∧ m = '̀' then some 'à'
  else if b = 'E' ∧ m = '́' then some 'É'
  else if b = 'e' ∧ m = '́' then some 'é'
  else if b = 'A' ∧ m = '̊' then some 'Å'
  else if b = 'a' ∧ m = '̊' then some 'å'
  else none

/-- First-seen deduplication, worker: keeps the first occurrence of each
character, skipping characters already seen. -/
def dedupFirstAux (seen : List Char) : List Char → List Char
  | [] => []
  | c :: rest =>
      if c ∈ seen then dedupFirstAux seen rest
      else c :: dedupFirstAux (c :: seen) rest

/-- First-seen deduplication of a character list. -/
def dedupFirst (l : List Char) : List Char := dedupFirstAux [] l

/-- Modelled from the spec: the Glyph Parser splits a glyph-list string on
single spaces.  Worker accumulating the current word reversed. -/
def splitSpacesAux : List Char → List Char → List (List Char)
  | [], acc => if acc = [] then [] else [acc.reverse]
  | c :: rest, acc =>
      if c = ' ' then
        if acc = [] then splitSpacesAux rest []
        else acc.reverse :: splitSpacesAux rest []
      else splitSpacesAux rest (c :: acc)

/-- Modelled from the spec: split a string into space-separated words, each a
codepoint list. -/
def splitSpaces (s : String) : List (List Char) := splitSpacesAux s.data []

/-- Modelled from the spec: a leading dotted-circle placeholder (U+25CC) in a
token is stripped, so a placeholder-written mark token denotes the bare
mark. -/
def stripPlaceholder : List Char → List Char
  | [] => []
  | c :: rest => if c = '◌' then rest else c :: rest

/-- Modelled from the spec: tokenize a glyph-list string into ordered grapheme
tokens (codepoint lists), placeholder forms reduced to the bare mark. -/
def parse (s : String) : List (List Char) := (splitSpaces s).map stripPlaceholder

/-- Modelled from the spec: full canonical decomposition of a token, expanding
each precomposed codepoint into its base letter followed by its mark. -/
def tokenDecomp (t : List Char) : List Char :=
  t.flatMap fun c =>
    match decompose1 c with
    | some (b, m) => [b, m]
    | none => [c]

/-- Modelled from the spec: the base letter contributed by a token to the
chars list — the leading codepoint, unless the token is empty or is itself
a bare combining mark (chars never contains a standalone combining mark). -/
def tokenBase (t : List Char) : Option Char :=
  match t with
  | [] => none
  | c :: _ => if isMarkChar c then none else some c

/-- Modelled from the spec: chars extraction — unique base letters of the
tokens in first-seen order, standalone combining marks excluded. -/
def charsOf (ts : List (List Char)) : List Char :=
  dedupFirst (ts.filterMap tokenBase)

/-- Modelled from the spec: the combining marks surfaced by fully decomposing
one token. -/
def tokenMarks (t : List Char) : List Char := (tokenDecomp t).filter isMarkChar

/-- Modelled from the spec: marks extraction — unique combining marks found
across all tokens, in decomposition order. -/
def marksOf (ts : List (List Char)) : List Char :=
  dedupFirst (ts.flatMap tokenMarks)

/-- Modelled from the spec: the (base letter, combining mark) pairs a token
decomposes into. -/
def tokenPairs (t : List Char) : List (Char × Char) :=
  match tokenDecomp t with
  | [] => []
  | b :: rest =>
      if isMarkChar b then []
      else (rest.filter isMarkChar).map fun m => (b, m)

/-- Modelled from the spec: a mark is required by a token list when some token
decomposes into a (base, mark) pair with no precomposed codepoint. -/
def markRequired (ts : List (List Char)) (m : Char) : Bool :=
  ts.any fun t =>
    (tokenPairs t).any fun p => p.2 == m && (composeBM p.1 p.2).isNone

/-- Modelled from the spec: the required subset of a marks list relative to a
token list. -/
def requiredMarksOf (ts : List (List Char)) (ms : List Char) : List Char :=
  ms.filter (markRequired ts)

/-- Modelled from the spec: the raw attribute mapping of one orthography, the
fields this development needs. -/
structure Orthography where
  base : String := ""
  auxiliary : Option String := none
  marks : Option String := none
  script : Option String := none
  autonym : String := ""

/-- Modelled from the spec: the token list of the base attribute. -/
def baseTokens (o : Orthography) : List (List Char) := parse o.base

/-- Modelled from the spec: the token list of the auxiliary attribute, empty
when the attribute is absent. -/
def auxTokens (o : Orthography) : List (List Char) :=
  match o.auxiliary with
  | some s => parse s
  | none => []

/-- Modelled from the spec: derived base character list. -/
def base_chars (o : Orthography) : List Char := charsOf (baseTokens o)

/-- Modelled from the spec: derived base mark list — marks found decomposing
the base tokens. -/
def base_marks (o : Orthography) : List Char := marksOf (baseTokens o)

/-- Modelled from the spec: derived required base marks. -/
def required_base_marks (o : Orthography) : List Char :=
  requiredMarksOf (baseTokens o) (base_marks o)

/-- Modelled from the spec: the explicitly declared marks of the marks
attribute, bare combining marks after placeholder stripping. -/
def explicitMarks (o : Orthography) : List Char :=
  match o.marks with
  | some s => ((parse s).flatMap id).filter isMarkChar
  | none => []

/-- Modelled from the spec: derived auxiliary mark list — auxiliary is
additive over base, so this is the union of all base marks, the marks
decomposed from auxiliary tokens, and the explicitly declared marks. -/
def auxiliary_marks (o : Orthography) : List Char :=
  dedupFirst (base_marks o ++ marksOf (auxTokens o) ++ explicitMarks o)

/-- Modelled from the spec: the token list the auxiliary required-mark
computation ranges over — base tokens plus auxiliary tokens. -/
def auxAllTokens (o : Orthography) : List (List Char) :=
  baseTokens o ++ auxTokens o

/-- Modelled from the spec: derived required auxiliary marks. -/
def required_auxiliary_marks (o : Orthography) : List Char :=
  requiredMarksOf (auxAllTokens o) (auxiliary_marks o)

/-- German-like orthography of the spec examples: precomposed umlauts in
base, accented auxiliary letters, explicitly declared marks. -/
def germanOrt : Orthography :=
  { base := "A B Ä Ö Ü a b ä ö ü"
    auxiliary := some "À É ẞ à é"
    marks := some "◌̈ ◌̀ ◌́"
    script := some "Latin"
    autonym := "Deutsch" }

/-- Hausa-like orthography of the spec examples: base contains R and r with a
combining tilde, a combination with no precomposed codepoint. -/
def hausaOrt : Orthography :=
  { base := "A B R̃ a b r̃"
    script := some "Latin" }

/-- Orthography with precomposed umlaut base, for the no-decomposition
example. -/
def ortUml : Orthography := { base := "Ä ä" }

/-- Orthography whose three base tokens share the open-o base letter, for the
token-collapse example. -/
def ortOpenO : Orthography := { base := "Ɔ̀ Ɔ̌ Ɔ̈" }

/-- Modelled from the spec: a raw token of a glyph-list string is either a
literal grapheme token or an inheritance reference to another language. -/
inductive RawTok
  | lit (t : List Char)
  | inh (iso : String)
deriving DecidableEq

/-- Modelled from the spec: group brace-delimited inheritance tokens out of a
word sequence, joining multi-word brace groups.  The accumulator carries the
inside of an open brace group. -/
def groupBracesAux : Option (List Char) → List (List Char) → List RawTok
  | _, [] => []
  | none, w :: rest =>
      match w with
      | '{' :: inner =>
          if inner.getLast? = some '}' then
            RawTok.inh ⟨inner.dropLast⟩ :: groupBracesAux none rest
          else groupBracesAux (some inner) rest
      | _ => RawTok.lit w :: groupBracesAux none rest
  | some acc, w :: rest =>
      if w.getLast? = some '}' then
        RawTok.inh ⟨acc ++ w.dropLast⟩ :: groupBracesAux none rest
      else groupBracesAux (some (acc ++ w)) rest

/-- Modelled from the spec: scan a glyph-list string left to right into
literal tokens and inheritance tokens, both single-word references such as
one written as an iso code wrapped in braces, and spaced multi-word ones. -/
def tokenizeRaw (s : String) : List RawTok := groupBracesAux none (splitSpaces s)

/-- Modelled from the spec: the glyph-list attributes of an orthography. -/
inductive Attr
  | base
  | auxiliary
  | marks
  | punctuation
  | numerals
  | currency
deriving DecidableEq, BEq

/-- Modelled from the spec: errors raised during inheritance resolution. -/
inductive InheritErr
  | inheritanceErr (iso : String)
  | missingScriptErr
deriving DecidableEq

/-- Modelled from the spec: the language collection seen by the Inheritance
Resolver — for each (iso code, script, attribute) the referenced language
orthography attribute content, already fully resolved to token form. -/
def LangDB := List (String × String × Attr × List (List Char))

/-- Modelled from the spec: look up the same-script orthography attribute
content of a referenced language. -/
def lookupInherit (db : LangDB) (iso script : String) (attr : Attr) :
    Option (List (List Char)) :=
  (db.find? fun e => e.1 == iso && e.2.1 == script && e.2.2.1 == attr).map
    fun e => e.2.2.2

/-- Modelled from the spec: resolve the raw token sequence of one attribute.
Literal tokens pass through in place.  An inheritance token with no script
on the requesting orthography is fatal.  A lookup miss is fatal for the
mandatory base attribute and degrades to a counted warning with empty
contribution for any other attribute.  Returns the resolved token sequence
and the number of warnings. -/
def resolveRaw (db : LangDB) (script : Option String) (attr : Attr) :
    List RawTok → Except InheritErr (List (List Char) × Nat)
  | [] => .ok ([], 0)
  | RawTok.lit t :: rest =>
      match resolveRaw db script attr rest with
      | .error e => .error e
      | .ok (ts, w) => .ok (t :: ts, w)
  | RawTok.inh iso :: rest =>
      match script with
      | none => .error InheritErr.missingScriptErr
      | some sc =>
          match lookupInherit db iso sc attr with
          | some inherited =>
              match resolveRaw db script attr rest with
              | .error e => .error e
              | .ok (ts, w) => .ok (inherited ++ ts, w)
          | none =>
              if attr = Attr.base then .error (InheritErr.inheritanceErr iso)
              else
                match resolveRaw db script attr rest with
                | .error e => .error e
                | .ok (ts, w) => .ok (ts, w + 1)

/-- Modelled from the spec: resolve a raw attribute string against the
language collection. -/
def resolveAttrString (db : LangDB) (script : Option String) (attr : Attr)
    (s : String) : Except InheritErr (List (List Char) × Nat) :=
  resolveRaw db script attr (tokenizeRaw s)

/-- The character list of a successful resolution. -/
def resolvedChars (r : Except InheritErr (List (List Char) × Nat)) :
    Option (List Char) :=
  match r with
  | .ok (ts, _) => some (charsOf ts)
  | .error _ => none

/-- Modelled from the spec: a small language collection with English and
Finnish Latin base content, for the inheritance ordering example. -/
def dbDemo : LangDB :=
  [("eng", "Latin", Attr.base, parse "A B C a b c"),
   ("fin", "Latin", Attr.base, parse "A B C D Å Ä Ö a b c d å ä ö")]

/-- Modelled from the spec: the Script Registry, display script name to ISO
15924 code, loaded once and never mutated. -/
def scriptRegistry : List (String × String) :=
  [("Chinese", "Hani"),
   ("Latin", "Latn"),
   ("N\u0027Ko", "Nkoo"),
   ("Geʽez", "Ethi"),
   ("Cyrillic", "Cyrl"),
   ("Arabic", "Arab"),
   ("Greek", "Grek")]

/-- Modelled from the spec: the failure raised when a script name is not in
the registry. -/
inductive ScriptLookupErr
  | unknownScript (name : String)
deriving DecidableEq

/-- Modelled from the spec: case-sensitive exact-match registry lookup,
failing for any name absent from the registry. -/
def lookupScriptIso (name : String) : Except ScriptLookupErr String :=
  match scriptRegistry.find? (fun p => p.1 == name) with
  | some p => .ok p.2
  | none => .error (ScriptLookupErr.unknownScript name)

/-- Modelled from the spec: the Mark Classifier entry point — true exactly for
a one-codepoint string whose codepoint is in a combining-mark category. -/
def is_mark (s : String) : Bool :=
  match s.data with
  | [c] => isMarkChar c
  | _ => false

/-- Translated from validate.py, check_is_valid_glyph_string, first guard: the
regex finding a line break finds a match exactly when the string contains a
newline character.  Further guards below; the final loop over the string
only logs warnings for modifier symbols and never changes the result. -/
def hasNewline (l : List Char) : Bool := '\n' ∈ l

/-- Translated from validate.py: the regex finding runs of two or more spaces
finds a match exactly when two consecutive spaces occur. -/
def hasDoubleSpace : List Char → Bool
  | [] => false
  | a :: rest =>
      if a = ' ' ∧ rest.head? = some ' ' then true else hasDoubleSpace rest

/-- Translated from validate.py: the comma regex — one or more commas, a run
of non-commas, one or more commas — finds a match exactly when the string
contains at least two commas, adjacent or not. -/
def hasCommaPair : List Char → Bool
  | [] => false
  | c :: rest => if c = ',' then decide (',' ∈ rest) else hasCommaPair rest

/-- Translated from validate.py, check_is_valid_glyph_string: reject on a
line-break match, then on a double-space match, then on a comma-pair match,
otherwise accept. -/
def check_is_valid_glyph_string (glyphs : String) : Bool :=
  if hasNewline glyphs.data then false
  else if hasDoubleSpace glyphs.data then false
  else if hasCommaPair glyphs.data then false
  else true

/-- Modelled from the spec: the lowercase conversion applied to the autonym,
for the codepoints used in this development. -/
def pyLower (c : Char) : Char :=
  if 'A' ≤ c ∧ c ≤ 'Z' then Char.ofNat (c.toNat + 32)
  else if c = 'Ä' then 'ä'
  else if c = 'Ö' then 'ö'
  else if c = 'Ü' then 'ü'
  else if c = 'À' then 'à'
  else if c = 'É' then 'é'
  else if c = 'Å' then 'å'
  else c

/-- Modelled from the spec: lowercase a string codepoint by codepoint. -/
def lowerStr (s : String) : String := ⟨s.data.map pyLower⟩

/-- Modelled from the spec: word characters kept when the autonym is stripped
of non-word characters — ASCII letters, digits, the underscore, and the
Latin letter ranges used in this development. -/
def isPyWordChar (c : Char) : Bool :=
  ('a' ≤ c && c ≤ 'z') || ('A' ≤ c && c ≤ 'Z') || ('0' ≤ c && c ≤ '9') ||
  (c == '_') ||
  (0x00C0 ≤ c.toNat && c.toNat ≤ 0x024F && c.toNat ≠ 0x00D7 &&
    c.toNat ≠ 0x00F7)

/-- Modelled from the spec: strip the non-word characters of a string. -/
def stripNonWord (s : String) : String := ⟨s.data.filter isPyWordChar⟩

/-- Modelled from the spec: parse_chars of the Glyph Parser — the unique
characters surfaced by the tokens of a glyph-list string, a one-codepoint
token kept as itself and a longer token fully decomposed. -/
def parse_chars (s : String) : List Char :=
  dedupFirst ((parse s).flatMap fun t =>
    match t with
    | [c] => [c]
    | _ => tokenDecomp t)

/-- Modelled from the spec: parse_chars of an optional attribute, empty when
the attribute is absent. -/
def optChars : Option String → List Char
  | some s => parse_chars s
  | none => []

/-- The parsed character set of the lowercased, non-word-stripped autonym. -/
def autonymCharSet (o : Orthography) : Finset Char :=
  (parse_chars (stripNonWord (lowerStr o.autonym))).toFinset

/-- Translated from validate.py, check_autonym_spelling: collect the parsed
characters of base, auxiliary and marks into a set, parse the lowercased
autonym stripped of non-word characters, and return whether the autonym
characters are a subset, together with the character set and the missing
set. -/
def check_autonym_spelling (o : Orthography) :
    Bool × Finset Char × Finset Char :=
  let chars :=
    ((parse_chars o.base ++ optChars o.auxiliary) ++ optChars o.marks).toFinset
  let autonymChars := autonymCharSet o
  (decide (autonymChars ⊆ chars), chars, autonymChars \ chars)

/-- Translated from validate.py: the yaml value shapes a language record field
can hold. -/
inductive Yaml
  | str (s : String)
  | list (l : List Yaml)
  | boolean (b : Bool)
  | num (n : Int)
  | null

/-- Translated from validate.py: a language record is a keyed mapping. -/
def LangRecord := List (String × Yaml)

/-- Translated from validate.py: field access on a language record. -/
def langGet (lang : LangRecord) (k : String) : Option Yaml :=
  (lang.find? fun p => p.1 == k).map fun p => p.2

/-- Whether an optional field holds a yaml list. -/
def isYamlList : Option Yaml → Bool
  | some (Yaml.list _) => true
  | _ => false

/-- Translated from validate.py, check_includes: absent key fails, non-list
value fails, then the guard compares the length of the literal string key
with one — the list value itself is never measured — and accepts. -/
def check_includes (lang : LangRecord) : Bool :=
  if (langGet lang "includes").isNone then false
  else if !(isYamlList (langGet lang "includes")) then false
  else if String.length "includes" < 1 then false
  else true

/-- Membership in the deduplication worker: present iff present in the input
and not already seen. -/
theorem mem_dedupFirstAux (c : Char) :
    ∀ (l seen : List Char), c ∈ dedupFirstAux seen l ↔ c ∈ l ∧ c ∉ seen := by
  intro l
  induction l with
  | nil => intro seen; simp [dedupFirstAux]
  | cons a rest ih =>
      intro seen
      by_cases h : a ∈ seen
      · simp only [dedupFirstAux, if_pos h, ih, List.mem_cons]
        constructor
        · rintro ⟨h1, h2⟩; exact ⟨Or.inr h1, h2⟩
        · rintro ⟨h1 | h1, h2⟩
          · subst h1; exact absurd h h2
          · exact ⟨h1, h2⟩
      · simp only [dedupFirstAux, if_neg h, List.mem_cons, ih]
        constructor
        · rintro (h1 | ⟨h1, h2⟩)
          · subst h1; exact ⟨Or.inl rfl, h⟩
          · push_neg at h2
            exact ⟨Or.inr h1, h2.2⟩
        · rintro ⟨h1 | h1, h2⟩
          · exact Or.inl h1
          · by_cases hc : c = a
            · exact Or.inl hc
            · refine Or.inr ⟨h1, ?_⟩
              push_neg; exact ⟨hc, h2⟩

/-- Membership in the first-seen deduplication is membership in the input. -/
theorem mem_dedupFirst (c : Char) (l : List Char) :
    c ∈ dedupFirst l ↔ c ∈ l := by
  simp [dedupFirst, mem_dedupFirstAux]

/-- The deduplication worker returns a duplicate-free list. -/
theorem nodup_dedupFirstAux :
    ∀ (l seen : List Char), (dedupFirstAux seen l).Nodup := by
  intro l
  induction l with
  | nil => intro seen; simp [dedupFirstAux]
  | cons a rest ih =>
      intro seen
      by_cases h : a ∈ seen
      · simpa [dedupFirstAux, if_pos h] using ih seen
      · rw [dedupFirstAux, if_neg h]
        refine List.nodup_cons.mpr ⟨?_, ih _⟩
        intro hmem
        rw [mem_dedupFirstAux] at hmem
        exact hmem.2 (List.mem_cons_self a seen)

/-- First-seen deduplication returns a duplicate-free list. -/
theorem nodup_dedupFirst (l : List Char) : (dedupFirst l).Nodup :=
  nodup_dedupFirstAux l []

/-- A token base is never a combining mark. -/
theorem tokenBase_not_mark {t : List Char} {c : Char}
    (h : tokenBase t = some c) : isMarkChar c = false := by
  match t with
  | [] => simp [tokenBase] at h
  | a :: rest =>
      rw [tokenBase] at h
      by_cases hm : isMarkChar a
      · simp [hm] at h
      · rw [if_neg hm] at h
        cases h
        simpa using hm

/-- No combining mark is a member of an extracted character list. -/
theorem isMark_not_mem_charsOf (ts : List (List Char)) (m : Char)
    (hm : isMarkChar m = true) : m ∉ charsOf ts := by
  intro hmem
  rw [charsOf, mem_dedupFirst, List.mem_filterMap] at hmem
  obtain ⟨t, _, ht⟩ := hmem
  rw [tokenBase_not_mark ht] at hm
  exact Bool.false_ne_true hm

/-- Membership characterization of the required-marks computation. -/
theorem mem_requiredMarksOf (ts : List (List Char)) (ms : List Char)
    (m : Char) :
    m ∈ requiredMarksOf ts ms ↔
      m ∈ ms ∧ ∃ t ∈ ts, ∃ b, (b, m) ∈ tokenPairs t ∧ composeBM b m = none := by
  rw [requiredMarksOf, List.mem_filter]
  refine and_congr_right fun _ => ?_
  rw [markRequired, List.any_eq_true]
  constructor
  · rintro ⟨t, ht, hp⟩
    rw [List.any_eq_true] at hp
    obtain ⟨p, hpmem, hcond⟩ := hp
    rw [Bool.and_eq_true, beq_iff_eq, Option.isNone_iff_eq_none] at hcond
    refine ⟨t, ht, p.1, ?_, ?_⟩
    · rw [← hcond.1]; exact hpmem
    · rw [← hcond.1]; exact hcond.2
  · rintro ⟨t, ht, b, hbm, hcomp⟩
    refine ⟨t, ht, ?_⟩
    rw [List.any_eq_true]
    exact ⟨(b, m), hbm, by simp [hcomp]⟩

/-- The double-space scan finds a match exactly when the character list
decomposes around two consecutive spaces, the match condition of the
double-space regex of check_is_valid_glyph_string. -/
theorem hasDoubleSpace_iff (l : List Char) :
    hasDoubleSpace l = true ↔ ∃ l₁ l₂, l = l₁ ++ ' ' :: ' ' :: l₂ := by
  induction l with
  | nil =>
      simp only [hasDoubleSpace]
      constructor
      · intro h; exact absurd h (by simp)
      · rintro ⟨l₁, l₂, h⟩
        exact absurd h.symm (by simp)
  | cons a rest ih =>
      rw [hasDoubleSpace]
      by_cases h : a = ' ' ∧ rest.head? = some ' '
      · rw [if_pos h]
        obtain ⟨ha, hh⟩ := h
        subst ha
        cases rest with
        | nil => simp at hh
        | cons b t =>
            rw [List.head?_cons] at hh
            injection hh with hb
            subst hb
            simp only [true_iff]
            exact ⟨[], t, rfl⟩
      · rw [if_neg h, ih]
        constructor
        · rintro ⟨l₁, l₂, hd⟩
          exact ⟨a :: l₁, l₂, by rw [hd]; rfl⟩
        · rintro ⟨l₁, l₂, hd⟩
          match l₁, hd with
          | [], hd =>
              cases hd
              exact absurd ⟨rfl, rfl⟩ h
          | b :: l₁, hd =>
              rw [List.cons_append] at hd
              cases hd
              exact ⟨l₁, l₂, rfl⟩

/-- The comma scan finds a match exactly when the character list decomposes
around two commas, the match condition of the comma regex of
check_is_valid_glyph_string. -/
theorem hasCommaPair_iff (l : List Char) :
    hasCommaPair l = true ↔ ∃ l₁ l₂ l₃, l = l₁ ++ ',' :: l₂ ++ ',' :: l₃ := by
  induction l with
  | nil =>
      simp only [hasCommaPair]
      constructor
      · intro h; exact absurd h (by simp)
      · rintro ⟨l₁, l₂, l₃, h⟩
        exact absurd h.symm (by simp)
  | cons a rest ih =>
      rw [hasCommaPair]
      by_cases h : a = ','
      · rw [if_pos h]
        subst h
        rw [decide_eq_true_iff]
        constructor
        · intro hmem
          obtain ⟨s, t, hst⟩ := List.append_of_mem hmem
          exact ⟨[], s, t, by rw [hst]; rfl⟩
        · rintro ⟨l₁, l₂, l₃, hd⟩
          match l₁, hd with
          | [], hd =>
              cases hd
              exact List.mem_append_right l₂ (List.mem_cons_self ',' l₃)
          | b :: l₁, hd =>
              simp only [List.cons_append] at hd
              cases hd
              exact List.mem_append_right _ (List.mem_cons_self ',' l₃)
      · rw [if_neg h, ih]
        constructor
        · rintro ⟨l₁, l₂, l₃, hd⟩
          exact ⟨a :: l₁, l₂, l₃, by rw [hd]; rfl⟩
        · rintro ⟨l₁, l₂, l₃, hd⟩
          match l₁, hd with
          | [], hd =>
              cases hd
              exact absurd rfl h
          | b :: l₁, hd =>
              simp only [List.cons_append] at hd
              cases hd
              exact ⟨l₁, l₂, l₃, rfl⟩

/-- A literal token resolves in place: its token is prepended to the
resolution of the remaining tokens. -/
theorem resolveRaw_lit (db : LangDB) (sc : Option String) (attr : Attr)
    (t : List Char) (rest : List RawTok) :
    resolveRaw db sc attr (RawTok.lit t :: rest) =
      (resolveRaw db sc attr rest).map fun p => (t :: p.1, p.2) := by
  rw [resolveRaw]
  cases resolveRaw db sc attr rest <;> rfl

/-- A found inheritance token resolves in place: the inherited token sequence
is spliced at its original position, ahead of the resolution of the
remaining tokens. -/
theorem resolveRaw_inh_found (db : LangDB) (sc : String) (attr : Attr)
    (iso : String) (ts : List (List Char)) (rest : List RawTok)
    (h : lookupInherit db iso sc attr = some ts) :
    resolveRaw db (some sc) attr (RawTok.inh iso :: rest) =
      (resolveRaw db (some sc) attr rest).map fun p => (ts ++ p.1, p.2) := by
  rw [resolveRaw, h]
  cases resolveRaw db (some sc) attr rest <;> rfl

/-- A missed inheritance token on the mandatory base attribute is fatal. -/
theorem resolveRaw_base_miss (db : LangDB) (sc : String) (iso : String)
    (rest : List RawTok) (h : lookupInherit db iso sc Attr.base = none) :
    resolveRaw db (some sc) Attr.base (RawTok.inh iso :: rest) =
      .error (InheritErr.inheritanceErr iso) := by
  rw [resolveRaw, h]
  rfl

/-- An inheritance token with no script on the requesting orthography is
fatal. -/
theorem resolveRaw_no_script (db : LangDB) (attr : Attr) (iso : String)
    (rest : List RawTok) :
    resolveRaw db none attr (RawTok.inh iso :: rest) =
      .error InheritErr.missingScriptErr := by
  rw [resolveRaw]

/-- A missed inheritance token on an optional attribute contributes nothing,
counts one warning, and resolution of the remaining tokens continues. -/
theorem resolveRaw_optional_miss (db : LangDB) (sc : String) (attr : Attr)
    (iso : String) (rest : List RawTok) (hattr : attr ≠ Attr.base)
    (h : lookupInherit db iso sc attr = none) :
    resolveRaw db (some sc) attr (RawTok.inh iso :: rest) =
      (resolveRaw db (some sc) attr rest).map fun p => (p.1, p.2 + 1) := by
  rw [resolveRaw, h, if_neg hattr]
  cases resolveRaw db (some sc) attr rest <;> rfl

/-- C1: for every glyph-list attribute, a mark in the attribute mark list is
required exactly when some token of the expanded token list decomposes into
a (base letter, mark) pair with no precomposed codepoint; hence the
required marks are a subset of the attribute marks, the Hausa-like
orthography requires the combining tilde for base, and the German-like
orthography with fully precomposed accented letters requires nothing. -/
theorem required_marks_characterization :
    (∀ (ts : List (List Char)) (ms : List Char) (m : Char),
        m ∈ requiredMarksOf ts ms ↔
          m ∈ ms ∧ ∃ t ∈ ts, ∃ b, (b, m) ∈ tokenPairs t ∧ composeBM b m = none)
    ∧ (∀ (ts : List (List Char)) (ms : List Char), requiredMarksOf ts ms ⊆ ms)
    ∧ (∀ o : Orthography, required_base_marks o ⊆ base_marks o)
    ∧ (∀ o : Orthography, required_auxiliary_marks o ⊆ auxiliary_marks o)
    ∧ required_base_marks hausaOrt = ['̃']
    ∧ required_auxiliary_marks hausaOrt = ['̃']
    ∧ required_base_marks germanOrt = []
    ∧ required_auxiliary_marks germanOrt = [] := by
  refine ⟨mem_requiredMarksOf, ?_, ?_, ?_, ?_, ?_, ?_, ?_⟩
  · intro ts ms x hx; exact (List.mem_filter.mp hx).1
  · intro o x hx; exact (List.mem_filter.mp hx).1
  · intro o x hx; exact (List.mem_filter.mp hx).1
  · decide
  · decide
  · decide
  · decide

/-- C1 witness: the characterization applied at a concrete token list, marks
list and mark. -/
theorem required_marks_characterization_witness :
    '̃' ∈ requiredMarksOf [['R', '̃']] ['̃'] :=
  (required_marks_characterization.1 [['R', '̃']] ['̃'] '̃').mpr
    ⟨by decide, ['R', '̃'], by decide, 'R', by decide, by decide⟩

/-- C5: extracted character lists hold unique base letters in first-seen
order and never a standalone combining mark; precomposed letters are not
decomposed (umlaut base keeps the precomposed letters, the plain letters
are absent) and tokens sharing a base letter collapse to one entry. -/
theorem chars_no_marks_and_collapse :
    (∀ ts : List (List Char), (charsOf ts).Nodup)
    ∧ (∀ (ts : List (List Char)) (m : Char),
        isMarkChar m = true → m ∉ charsOf ts)
    ∧ base_chars ortUml = ['Ä', 'ä']
    ∧ 'A' ∉ base_chars ortUml
    ∧ 'a' ∉ base_chars ortUml
    ∧ base_chars ortOpenO = ['Ɔ']
    ∧ (base_chars ortOpenO).length = 1
    ∧ (baseTokens ortOpenO).length = 3 := by
  refine ⟨?_, isMark_not_mem_charsOf, ?_, ?_, ?_, ?_, ?_, ?_⟩
  · intro ts; exact nodup_dedupFirst _
  · decide
  · decide
  · decide
  · decide
  · decide
  · decide

/-- C5 witness: the mark-exclusion statement applied at a concrete token list
and mark. -/
theorem chars_no_marks_and_collapse_witness :
    '̈' ∉ charsOf [['A', '̈'], ['̈']] :=
  chars_no_marks_and_collapse.2.1 [['A', '̈'], ['̈']] '̈' (by decide)

/-- C6: the auxiliary mark list is the union of the marks decomposed from the
auxiliary tokens, all base marks, and the explicitly declared marks, so the
base marks are always a subset of the auxiliary marks; on the German-like
orthography, base needs only the diaeresis while auxiliary adds the grave
and the acute. -/
theorem auxiliary_marks_additive :
    (∀ (o : Orthography) (m : Char),
        m ∈ auxiliary_marks o ↔
          m ∈ marksOf (auxTokens o) ∨ m ∈ base_marks o ∨ m ∈ explicitMarks o)
    ∧ (∀ o : Orthography, base_marks o ⊆ auxiliary_marks o)
    ∧ base_marks germanOrt = ['̈']
    ∧ auxiliary_marks germanOrt = ['̈', '̀', '́'] := by
  refine ⟨?_, ?_, by decide, by decide⟩
  · intro o m
    rw [auxiliary_marks, mem_dedupFirst, List.mem_append, List.mem_append]
    tauto
  · intro o m hm
    rw [auxiliary_marks, mem_dedupFirst, List.mem_append, List.mem_append]
    exact Or.inl (Or.inl hm)

/-- C6 witness: the subset statement applied at the German-like orthography
and its diaeresis mark. -/
theorem auxiliary_marks_additive_witness :
    '̈' ∈ auxiliary_marks germanOrt :=
  auxiliary_marks_additive.2.1 germanOrt (by decide)

/-- C3: during inheritance resolution, a miss on the mandatory base attribute
or a character inheritance without a script on the requesting orthography
is a fatal error returned to the caller, while a lookup miss on any other
attribute raises nothing — the token contributes no characters, one
warning is counted, and resolution of the remaining tokens continues. -/
theorem inheritance_fatal_vs_optional :
    (∀ (db : LangDB) (sc iso : String) (rest : List RawTok),
        lookupInherit db iso sc Attr.base = none →
          resolveRaw db (some sc) Attr.base (RawTok.inh iso :: rest) =
            .error (InheritErr.inheritanceErr iso))
    ∧ (∀ (db : LangDB) (attr : Attr) (iso : String) (rest : List RawTok),
        resolveRaw db none attr (RawTok.inh iso :: rest) =
          .error InheritErr.missingScriptErr)
    ∧ (∀ (db : LangDB) (sc : String) (attr : Attr) (iso : String)
        (rest : List RawTok), attr ≠ Attr.base →
          lookupInherit db iso sc attr = none →
            resolveRaw db (some sc) attr (RawTok.inh iso :: rest) =
              (resolveRaw db (some sc) attr rest).map
                fun p => (p.1, p.2 + 1)) := by
  refine ⟨?_, ?_, ?_⟩
  · intro db sc iso rest h
    exact resolveRaw_base_miss db sc iso rest h
  · intro db attr iso rest
    exact resolveRaw_no_script db attr iso rest
  · intro db sc attr iso rest hattr h
    exact resolveRaw_optional_miss db sc attr iso rest hattr h

/-- C3 witness: the fatal and the recoverable branch applied on the empty
language collection. -/
theorem inheritance_fatal_vs_optional_witness :
    resolveRaw [] (some "Latin") Attr.base [RawTok.inh "zzz"] =
      .error (InheritErr.inheritanceErr "zzz") ∧
    resolveRaw [] (some "Latin") Attr.marks
        [RawTok.inh "zzz", RawTok.lit ['x']] =
      (resolveRaw [] (some "Latin") Attr.marks [RawTok.lit ['x']]).map
        fun p => (p.1, p.2 + 1) :=
  ⟨inheritance_fatal_vs_optional.1 [] "Latin" "zzz" [] rfl,
    inheritance_fatal_vs_optional.2.2 [] "Latin" Attr.marks "zzz"
      [RawTok.lit ['x']] (by decide) rfl⟩

/-- C4: inheritance tokens are replaced in place, literal tokens keeping
their relative order — a literal token is prepended ahead of the
resolution of the remaining tokens and a found inheritance token splices
the inherited sequence at its own position — and resolving the spec base
string with script Latin yields a character list starting at the eszett,
ending at the slashed o, and containing the Finnish ring letter. -/
theorem inheritance_in_place_order :
    (∀ (db : LangDB) (sc : Option String) (attr : Attr) (t : List Char)
        (rest : List RawTok),
        resolveRaw db sc attr (RawTok.lit t :: rest) =
          (resolveRaw db sc attr rest).map fun p => (t :: p.1, p.2))
    ∧ (∀ (db : LangDB) (sc : String) (attr : Attr) (iso : String)
        (ts : List (List Char)) (rest : List RawTok),
        lookupInherit db iso sc attr = some ts →
          resolveRaw db (some sc) attr (RawTok.inh iso :: rest) =
            (resolveRaw db (some sc) attr rest).map
              fun p => (ts ++ p.1, p.2))
    ∧ (∃ l : List Char,
        resolvedChars
            (resolveAttrString dbDemo (some "Latin") Attr.base
              "ß {eng} ∂ œ { fin } ø") = some l
        ∧ l.head? = some 'ß' ∧ l.getLast? = some 'ø' ∧ 'Å' ∈ l) := by
  refine ⟨resolveRaw_lit, resolveRaw_inh_found, ?_⟩
  refine ⟨['ß', 'A', 'B', 'C', 'a', 'b', 'c', '∂', 'œ', 'D', 'Å', 'Ä', 'Ö',
    'd', 'å', 'ä', 'ö', 'ø'], ?_, by decide, by decide, by decide⟩
  decide

/-- C4 witness: the splice equation applied at the demo collection with the
English reference found. -/
theorem inheritance_in_place_order_witness :
    resolveRaw dbDemo (some "Latin") Attr.base [RawTok.inh "eng"] =
      (resolveRaw dbDemo (some "Latin") Attr.base []).map
        fun p => (parse "A B C a b c" ++ p.1, p.2) :=
  inheritance_in_place_order.2.1 dbDemo "Latin" Attr.base "eng"
    (parse "A B C a b c") [] (by decide)

/-- C7: the Script Registry lookup is a case-sensitive exact-match map from
display name to ISO 15924 code, agreeing with the four documented entries,
and it fails with the unknown-script error for every name absent from the
registry, never defaulting. -/
theorem script_registry_lookup :
    lookupScriptIso "Chinese" = .ok "Hani"
    ∧ lookupScriptIso "Latin" = .ok "Latn"
    ∧ lookupScriptIso "N\u0027Ko" = .ok "Nkoo"
    ∧ lookupScriptIso "Geʽez" = .ok "Ethi"
    ∧ (∀ name : String, (∀ p ∈ scriptRegistry, p.1 ≠ name) →
        lookupScriptIso name = .error (ScriptLookupErr.unknownScript name))
    ∧ lookupScriptIso "latin" = .error (ScriptLookupErr.unknownScript "latin")
    := by
  refine ⟨rfl, rfl, rfl, rfl, ?_, rfl⟩
  intro name h
  rw [lookupScriptIso]
  have hfind : scriptRegistry.find? (fun p => p.1 == name) = none := by
    rw [List.find?_eq_none]
    intro p hp
    simpa using h p hp
  rw [hfind]

/-- C7 witness: the absent-name statement applied at a concrete unmapped
name. -/
theorem script_registry_lookup_witness :
    lookupScriptIso "Foobar" =
      .error (ScriptLookupErr.unknownScript "Foobar") :=
  script_registry_lookup.2.2.2.2.1 "Foobar" (by decide)

/-- C8: the mark classifier accepts exactly the one-codepoint strings whose
codepoint has a combining-mark general category; the empty string, plain
and precomposed letters, multi-codepoint strings, the bare dotted-circle
placeholder and a dotted-circle-prefixed mark are all rejected, while bare
combining-mark codepoints are accepted. -/
theorem is_mark_spec :
    (∀ s : String,
        is_mark s = true ↔ ∃ c, s.data = [c] ∧ isMarkChar c = true)
    ∧ is_mark "" = false
    ∧ is_mark "A" = false
    ∧ is_mark "Ä" = false
    ∧ is_mark "◌̆" = false
    ∧ is_mark "◌" = false
    ∧ is_mark "Я̀" = false
    ∧ is_mark "̃" = true
    ∧ is_mark "ُ" = true := by
  refine ⟨?_, by decide, by decide, by decide, by decide, by decide,
    by decide, by decide, by decide⟩
  intro s
  rw [is_mark]
  match s.data with
  | [] => simp
  | [c] => simp
  | a :: b :: t => simp

/-- C8 witness: the characterization applied at the bare tilde string. -/
theorem is_mark_spec_witness :
    is_mark "̃" = true ↔
      ∃ c, ("̃" : String).data = [c] ∧ isMarkChar c = true :=
  is_mark_spec.1 "̃"

/-- C2 counterexample: the claim states the validation fails on the empty
string and on a single comma used as a separator between two tokens, but
check_is_valid_glyph_string accepts both. -/
theorem glyph_string_claim_counterexample :
    check_is_valid_glyph_string "" = true
    ∧ check_is_valid_glyph_string "a,b" = true := by
  refine ⟨by decide, by decide⟩

/-- C2 amended: the validation fails exactly on a line break, two or more
consecutive spaces, or at least two commas; a single comma and the empty
string are accepted, and every single-space-separated string with none of
these defects is accepted. -/
theorem glyph_string_rejects_iff :
    ∀ s : String,
      check_is_valid_glyph_string s = false ↔
        ('\n' ∈ s.data
          ∨ (∃ l₁ l₂, s.data = l₁ ++ ' ' :: ' ' :: l₂)
          ∨ (∃ l₁ l₂ l₃, s.data = l₁ ++ ',' :: l₂ ++ ',' :: l₃)) := by
  intro s
  rw [check_is_valid_glyph_string]
  by_cases h1 : hasNewline s.data
  · rw [if_pos h1]
    rw [hasNewline, decide_eq_true_iff] at h1
    exact iff_of_true rfl (Or.inl h1)
  · rw [if_neg h1]
    have h1m : '\n' ∉ s.data := by
      intro hm
      exact h1 (by rw [hasNewline, decide_eq_true_iff]; exact hm)
    by_cases h2 : hasDoubleSpace s.data
    · rw [if_pos h2]
      rw [hasDoubleSpace_iff] at h2
      exact iff_of_true rfl (Or.inr (Or.inl h2))
    · rw [if_neg h2]
      by_cases h3 : hasCommaPair s.data
      · rw [if_pos h3]
        rw [hasCommaPair_iff] at h3
        exact iff_of_true rfl (Or.inr (Or.inr h3))
      · rw [if_neg h3]
        have h2f : ¬∃ l₁ l₂, s.data = l₁ ++ ' ' :: ' ' :: l₂ := by
          rw [← hasDoubleSpace_iff]; simpa using h2
        have h3f : ¬∃ l₁ l₂ l₃, s.data = l₁ ++ ',' :: l₂ ++ ',' :: l₃ := by
          rw [← hasCommaPair_iff]; simpa using h3
        refine iff_of_false (by simp) ?_
        push_neg
        refine ⟨h1m, ?_, ?_⟩
        · intro l₁ l₂ hd; exact h2f ⟨l₁, l₂, hd⟩
        · intro l₁ l₂ l₃ hd; exact h3f ⟨l₁, l₂, l₃, hd⟩

/-- C2 witness: the amended characterization applied at a rejected and an
accepted concrete string. -/
theorem glyph_string_rejects_iff_witness :
    check_is_valid_glyph_string "a  b" = false
    ∧ check_is_valid_glyph_string "a,b,c" = false :=
  ⟨(glyph_string_rejects_iff "a  b").mpr
      (Or.inr (Or.inl ⟨['a'], ['b'], by decide⟩)),
    (glyph_string_rejects_iff "a,b,c").mpr
      (Or.inr (Or.inr ⟨['a'], ['b'], ['c'], by decide⟩))⟩

/-- C9: the autonym spelling check returns the de-duplicated union of the
parsed characters of base, auxiliary and marks, the missing set is exactly
the parsed characters of the lowercased non-word-stripped autonym that are
not in that union, and the success flag holds exactly when the autonym
characters are a subset of the union, equivalently when the missing set is
empty. -/
theorem check_autonym_spelling_spec :
    ∀ o : Orthography,
      (check_autonym_spelling o).2.1 =
          (parse_chars o.base).toFinset ∪ (optChars o.auxiliary).toFinset ∪
            (optChars o.marks).toFinset
      ∧ (check_autonym_spelling o).2.2 =
          autonymCharSet o \ (check_autonym_spelling o).2.1
      ∧ ((check_autonym_spelling o).1 = true ↔
          autonymCharSet o ⊆ (check_autonym_spelling o).2.1)
      ∧ ((check_autonym_spelling o).1 = true ↔
          (check_autonym_spelling o).2.2 = ∅) := by
  intro o
  refine ⟨?_, rfl, ?_, ?_⟩
  · show (_ : List Char).toFinset = _
    rw [List.toFinset_append, List.toFinset_append]
  · exact decide_eq_true_iff
  · show decide _ = true ↔ _
    rw [decide_eq_true_iff]
    exact (Finset.sdiff_eq_empty_iff_subset).symm

/-- C9 witness: the missing-set equivalence applied at the German-like
orthography. -/
theorem check_autonym_spelling_spec_witness :
    (check_autonym_spelling germanOrt).1 = true ↔
      (check_autonym_spelling germanOrt).2.2 = ∅ :=
  (check_autonym_spelling_spec germanOrt).2.2.2

/-- C10: check_includes accepts exactly the records whose includes key holds
a list value — in particular an empty includes list is accepted, because
the emptiness guard measures the length of the literal string key, which
is never below one, rather than the list. -/
theorem check_includes_spec :
    (∀ lang : LangRecord,
        check_includes lang = true ↔
          ∃ l, langGet lang "includes" = some (Yaml.list l))
    ∧ check_includes [("includes", Yaml.list [])] = true := by
  refine ⟨?_, by decide⟩
  intro lang
  rw [check_includes]
  cases hv : langGet lang "includes" with
  | none =>
      simp [hv]
  | some v =>
      cases v with
      | list l =>
          simp only [hv, Option.isNone_some, Bool.false_eq_true, if_false,
            isYamlList, Bool.not_true, if_neg]
          constructor
          · intro _; exact ⟨l, rfl⟩
          · intro _
            have hlen : ¬ String.length "includes" < 1 := by decide
            simp [hlen]
      | str a => simp [hv, isYamlList]
      | boolean b => simp [hv, isYamlList]
      | num n => simp [hv, isYamlList]
      | null => simp [hv, isYamlList]

/-- C10 witness: the characterization applied at a record with a one-element
includes list. -/
theorem check_includes_spec_witness :
    check_includes [("includes", Yaml.list [Yaml.str "deu"])] = true :=
  (check_includes_spec.1 [("includes", Yaml.list [Yaml.str "deu"])]).mpr
    ⟨[Yaml.str "deu"], rfl⟩
